import Mathlib

/-!
Verification of the GeriCare Supplier embedded-page proxy engine
(`src/pages/dashboard/overview/index.tsx` and `src/stores/useAuthStore.ts`).

JavaScript strings are modelled as `List Char` (one entry per UTF-16-ish code
point; all inputs of interest are ASCII) or as Lean `String` where only
equality and concatenation matter.  DOM trees produced by `DOMParser` are
modelled as a mutual inductive of element/text nodes and node forests.
Regex-based `String.prototype.replace` calls are modelled by deterministic
left-to-right scanners that mirror the concrete patterns of the source, which
involve no ambiguity-relevant backtracking.
-/

/-- JavaScript regex `\s` class, restricted to the ASCII whitespace characters
(the source's patterns and all data of interest are ASCII). -/
def isJsWs (c : Char) : Bool :=
  c == ' ' || c == '\t' || c == '\n' || c == '\r' || c == '\x0b' || c == '\x0c'

/-- Case-insensitive prefix test: `pat` (given lowercase) is a prefix of `s`
after lowercasing `s`, mirroring a regex literal with the `i` flag. -/
def ciPrefix : List Char → List Char → Bool
  | [], _ => true
  | _ :: _, [] => false
  | p :: ps, c :: cs => (c.toLower == p) && ciPrefix ps cs

/-- JavaScript `String.prototype.includes`: `needle` occurs as a contiguous
substring of `hay`. -/
def strIncludes : List Char → List Char → Bool
  | hay, needle =>
    if needle.isPrefixOf hay then true
    else match hay with
      | [] => false
      | _ :: t => strIncludes t needle

/-- JavaScript `String.prototype.toLowerCase` (ASCII). -/
def lowerChars (l : List Char) : List Char := l.map Char.toLower

/-- JavaScript `String.prototype.trim`: whitespace stripped from both ends. -/
def trimChars (l : List Char) : List Char :=
  ((l.dropWhile isJsWs).reverse.dropWhile isJsWs).reverse

/-- JavaScript `String.prototype.startsWith` on the `List Char` model. -/
def strStartsWith (s p : List Char) : Bool := p.isPrefixOf s

/-- `API_BASE` from `src/stores/useAuthStore.ts`. -/
def API_BASE : String := "https://gcdev.m.frappe.cloud"

/-- `API_BASE` as a character list, for the string-rewriting functions. -/
def apiBaseChars : List Char := API_BASE.data

/-- The ternary `url.startsWith('/') ? url : '/' + url` from line 93 of
`src/pages/dashboard/overview/index.tsx`. -/
def slashJoin (url : List Char) : List Char :=
  match url with
  | '/' :: _ => url
  | _ => '/' :: url

/-- `fixRelativeUrl` from `src/pages/dashboard/overview/index.tsx` lines 89-94:
pass through `url` when it starts with `"http"` or `"data:"`, otherwise prefix
`API_BASE`, adding a `'/'` separator unless `url` already starts with one. -/
def fixRelativeUrl (url : List Char) : List Char :=
  if strStartsWith url "http".data || strStartsWith url "data:".data then url
  else apiBaseChars ++ slashJoin url

/-- The input is an absolute URL of scheme `http` or `https` (spec wording of
§4.3 / claims C3, C4). -/
def isAbsHttpUrl (url : List Char) : Bool :=
  strStartsWith url "http://".data || strStartsWith url "https://".data

/-- The input is a `data:` URL. -/
def isDataUrl (url : List Char) : Bool := strStartsWith url "data:".data

/-- One attempted match, at the start of `s`, of the regex
`P\s*:[^;]+;?` with the `i` flag, where `P` is a literal property name
(`transform`, `-webkit-transform`, ..., `zoom`); returns the length of the
match.  The pattern has no ambiguity-relevant backtracking: `\s*` is
maximal (`':'` is not whitespace), `[^;]+` is maximal (`';'` is excluded),
and `;?` takes a following `';'` when present. -/
def matchPropDecl (prop s : List Char) : Option Nat :=
  if ciPrefix prop s then
    let r1 := s.drop prop.length
    let w := (r1.takeWhile isJsWs).length
    match r1.drop w with
    | ':' :: r3 =>
      let v := (r3.takeWhile (fun c => c != ';')).length
      if v = 0 then none
      else
        let semi := match r3.drop v with
          | ';' :: _ => 1
          | _ => 0
        some (prop.length + w + 1 + v + semi)
    | _ => none
  else none

/-- Fuelled left-to-right global replace of the declaration pattern by the
empty string, mirroring `String.prototype.replace` with a `g`-flagged regex:
at each position try to match; on a match skip it, otherwise emit one
character and continue.  Fuel `s.length` suffices since every match consumes
at least one character. -/
def stripDeclF (prop : List Char) : Nat → List Char → List Char
  | _, [] => []
  | 0, c :: t => c :: t
  | f + 1, c :: t =>
    match matchPropDecl prop (c :: t) with
    | some n => stripDeclF prop f ((c :: t).drop n)
    | none => c :: stripDeclF prop f t

/-- `styleContent.replace(/P\s*:[^;]+;?/gi, '')` for property literal `P`. -/
def stripDecl (prop s : List Char) : List Char := stripDeclF prop s.length s

/-- One attempted match, at the start of `s`, of `scale\([^)]+\)` with the
`i` flag; returns the length of the match. -/
def matchScale (s : List Char) : Option Nat :=
  if ciPrefix "scale(".data s then
    let r := s.drop 6
    let v := (r.takeWhile (fun c => c != ')')).length
    if v = 0 then none
    else match r.drop v with
      | ')' :: _ => some (6 + v + 1)
      | _ => none
  else none

/-- Fuelled global replace of `scale\([^)]+\)` by `scale(1)`. -/
def replaceScaleF : Nat → List Char → List Char
  | _, [] => []
  | 0, c :: t => c :: t
  | f + 1, c :: t =>
    match matchScale (c :: t) with
    | some n => "scale(1)".data ++ replaceScaleF f ((c :: t).drop n)
    | none => c :: replaceScaleF f t

/-- `styleContent.replace(/scale\([^)]+\)/gi, 'scale(1)')`. -/
def replaceScale (s : List Char) : List Char := replaceScaleF s.length s

/-- `sanitizeStyles` from `src/pages/dashboard/overview/index.tsx` lines
78-87: the seven chained `.replace` calls, in source order. -/
def sanitizeStyles (styleContent : String) : String :=
  String.mk (replaceScale
    (stripDecl "zoom".data
      (stripDecl "-o-transform".data
        (stripDecl "-ms-transform".data
          (stripDecl "-moz-transform".data
            (stripDecl "-webkit-transform".data
              (stripDecl "transform".data styleContent.data)))))))

/-- Some position of `s` matches the declaration pattern for `prop`. -/
def hasDeclOcc (prop : List Char) : List Char → Bool
  | [] => (matchPropDecl prop []).isSome
  | c :: t => (matchPropDecl prop (c :: t)).isSome || hasDeclOcc prop t

/-- Some position of `s` matches `scale\([^)]+\)`. -/
def hasScaleOcc : List Char → Bool
  | [] => (matchScale []).isSome
  | c :: t => (matchScale (c :: t)).isSome || hasScaleOcc t

/-- `s` contains an occurrence of a `transform`/vendor-prefixed-`transform`/
`zoom` declaration pattern (the patterns `sanitizeStyles` deletes). -/
def hasBadDecl (s : List Char) : Bool :=
  hasDeclOcc "transform".data s || hasDeclOcc "-webkit-transform".data s ||
  hasDeclOcc "-moz-transform".data s || hasDeclOcc "-ms-transform".data s ||
  hasDeclOcc "-o-transform".data s || hasDeclOcc "zoom".data s

/-- `s` contains no occurrence of any of the seven patterns that
`sanitizeStyles` replaces. -/
def noSanitizerPattern (s : List Char) : Bool :=
  !(hasBadDecl s || hasScaleOcc s)

/-- `normalizePath` from `src/pages/dashboard/overview/index.tsx` lines 28-30:
drop one trailing `'/'` when the path is longer than one character. -/
def normalizePath (path : List Char) : List Char :=
  if path.getLast? = some '/' ∧ 1 < path.length then path.dropLast else path

/-- `matchesPath` from `src/pages/dashboard/overview/index.tsx` lines
169-178: byte equality, equality with a `'/'` appended on either side, or
equality of the normalized paths. -/
def matchesPath (linkPath currentPath : List Char) : Bool :=
  linkPath == currentPath || linkPath == currentPath ++ ['/'] ||
    currentPath == linkPath ++ ['/'] ||
    normalizePath linkPath == normalizePath currentPath

/-- The matching predicate as worded by the spec (§4.5) and claim C7: paths
are byte-equal, or equal after stripping exactly one trailing slash from
either side, where the root path `"/"` is never collapsed. -/
def specIsActive (entryHref currentRoute : List Char) : Bool :=
  decide (entryHref = currentRoute ∨
    (entryHref.getLast? = some '/' ∧ entryHref ≠ ['/'] ∧
      entryHref.dropLast = currentRoute) ∨
    (currentRoute.getLast? = some '/' ∧ currentRoute ≠ ['/'] ∧
      currentRoute.dropLast = entryHref))

/-- The pieces of a parsed WHATWG `URL` that the click handler reads. -/
structure UrlParts where
  origin : String
  pathname : String
  search : String
  hash : String
deriving DecidableEq

/-- `new URL(API_BASE).origin`: `API_BASE` carries no path, port or
credentials, so its origin is itself. -/
def apiBaseOrigin : String := "https://gcdev.m.frappe.cloud"

/-- `isInternalLink` from `src/pages/dashboard/overview/index.tsx` lines
161-167 (its `catch` arm is unreachable: `new URL(API_BASE)` is a constant
valid URL and `origin`/`pathname` reads do not throw). -/
def isInternalLink (u : UrlParts) : Bool :=
  u.origin == apiBaseOrigin || strStartsWith u.pathname.data "/".data

/-- Observable effect of one content-area click. -/
structure ClickOutcome where
  preventedDefault : Bool
  stoppedPropagation : Bool
  navigatedTo : Option String
deriving DecidableEq

/-- `handleContentClick` from `src/pages/dashboard/overview/index.tsx` lines
246-263: given the clicked anchor's resolved URL (`none` when the click is
not on an anchor with an `href`), either intercept and client-route to
`pathname + search + hash`, or do nothing and leave default handling. -/
def handleContentClick (anchor : Option UrlParts) : ClickOutcome :=
  match anchor with
  | none => ⟨false, false, none⟩
  | some u =>
    if isInternalLink u then ⟨true, true, some (u.pathname ++ u.search ++ u.hash)⟩
    else ⟨false, false, none⟩

/-- `SKIP_ROUTES` from `src/pages/dashboard/overview/index.tsx` line 9. -/
def SKIP_ROUTES : List String := ["/", "/login"]

/-- JavaScript truthiness of the `token` value (`string | null`): `null` and
the empty string are falsy. -/
def tokenPresent : Option String → Bool
  | none => false
  | some t => t != ""

/-- The route-change effect from `src/pages/dashboard/overview/index.tsx`
lines 305-313: build `currentPath = pathname + search + hash`; skip when it
is listed in `SKIP_ROUTES` or no token is present, otherwise fetch it.
Returns the fetched path, `none` when the route is skipped. -/
def routeChangeFetch (pathname search hash : String)
    (token : Option String) : Option String :=
  let currentPath := pathname ++ search ++ hash
  if SKIP_ROUTES.contains currentPath || !(tokenPresent token) then none
  else some currentPath

mutual
/-- A DOM tree as produced by `DOMParser.parseFromString(html, 'text/html')`:
element nodes with a (lowercased) tag name, an attribute list and child
nodes, and text nodes.  Comments and other node kinds are omitted — none of
the extraction logic observes them. -/
inductive HNode where
  | elem : String → List (String × String) → HForest → HNode
  | text : String → HNode
inductive HForest where
  | nil : HForest
  | cons : HNode → HForest → HForest
end

/-- `element.children` (empty for text nodes). -/
def childrenOf : HNode → HForest
  | HNode.elem _ _ c => c
  | HNode.text _ => HForest.nil

/-- `element.getAttribute(name)`: `none` models a `null` return. -/
def getAttr (name : String) (attrs : List (String × String)) : Option String :=
  (attrs.find? (fun p => p.1 == name)).map (fun p => p.2)

/-- `element.setAttribute(name, value)`: overwrite an existing attribute,
else append (attribute names are unique in a parsed DOM). -/
def setAttr (name value : String) (attrs : List (String × String)) :
    List (String × String) :=
  if attrs.any (fun p => p.1 == name) then
    attrs.map (fun p => if p.1 == name then (name, value) else p)
  else attrs ++ [(name, value)]

/-- Split a `class` attribute value on whitespace runs (the `DOMTokenList`
view), accumulator-structural so that it evaluates in the kernel. -/
def classTokensAux : List Char → List Char → List (List Char)
  | [], acc => if acc.isEmpty then [] else [acc.reverse]
  | c :: t, acc =>
    if isJsWs c then
      if acc.isEmpty then classTokensAux t [] else acc.reverse :: classTokensAux t []
    else classTokensAux t (c :: acc)

/-- `element.classList.contains(cls)`. -/
def hasClassToken (cls : String) (attrs : List (String × String)) : Bool :=
  match getAttr "class" attrs with
  | some v => (classTokensAux v.data []).contains cls.data
  | none => false

/-- The element predicate of a tag selector such as `main` or `a`. -/
def tagPred (tag : String) : String → List (String × String) → Bool :=
  fun t _ => t == tag

/-- The element predicate of a class selector such as `.sidebar-items`. -/
def clsPred (cls : String) : String → List (String × String) → Bool :=
  fun _ a => hasClassToken cls a

mutual
/-- `node.textContent`: concatenated text of the subtree. -/
def textContentN : HNode → List Char
  | HNode.elem _ _ c => textContentF c
  | HNode.text s => s.data
def textContentF : HForest → List Char
  | HForest.nil => []
  | HForest.cons n rest => textContentN n ++ textContentF rest
end

mutual
/-- The subtree contains a `<script>` element. -/
def hasScriptN : HNode → Bool
  | HNode.elem t _ c => t == "script" || hasScriptF c
  | HNode.text _ => false
def hasScriptF : HForest → Bool
  | HForest.nil => false
  | HForest.cons n rest => hasScriptN n || hasScriptF rest
end

mutual
/-- `removeScripts` from `src/pages/dashboard/overview/index.tsx` lines
24-26: `element.querySelectorAll('script').forEach(s => s.remove())` —
every descendant `<script>` element is removed (the element itself is not a
candidate: `querySelectorAll` matches descendants only). -/
def removeScriptsN : HNode → HNode
  | HNode.elem t a c => HNode.elem t a (removeScriptsF c)
  | HNode.text s => HNode.text s
def removeScriptsF : HForest → HForest
  | HForest.nil => HForest.nil
  | HForest.cons (HNode.elem t a c) rest =>
    if t == "script" then removeScriptsF rest
    else HForest.cons (HNode.elem t a (removeScriptsF c)) (removeScriptsF rest)
  | HForest.cons (HNode.text s) rest =>
    HForest.cons (HNode.text s) (removeScriptsF rest)
end

mutual
/-- `querySelectorAll(p)` in document (preorder) order, including the start
node itself when it matches. -/
def collectN (p : String → List (String × String) → Bool) : HNode → List HNode
  | HNode.elem t a c =>
    if p t a then HNode.elem t a c :: collectF p c else collectF p c
  | HNode.text _ => []
def collectF (p : String → List (String × String) → Bool) : HForest → List HNode
  | HForest.nil => []
  | HForest.cons n rest => collectN p n ++ collectF p rest
end

mutual
/-- `querySelector(p)`: first match in preorder, including the start node. -/
def findN (p : String → List (String × String) → Bool) : HNode → Option HNode
  | HNode.elem t a c => if p t a then some (HNode.elem t a c) else findF p c
  | HNode.text _ => none
def findF (p : String → List (String × String) → Bool) : HForest → Option HNode
  | HForest.nil => none
  | HForest.cons n rest =>
    match findN p n with
    | some m => some m
    | none => findF p rest
end

mutual
/-- `querySelectorAll(p)[0].parentElement` for strict descendants of the
start node: the parent of the first (preorder) matching descendant. -/
def parentSearchN (p : String → List (String × String) → Bool) :
    HNode → Option HNode
  | HNode.elem t a c => parentSearchF p (HNode.elem t a c) c
  | HNode.text _ => none
def parentSearchF (p : String → List (String × String) → Bool)
    (par : HNode) : HForest → Option HNode
  | HForest.nil => none
  | HForest.cons (HNode.elem t a c) rest =>
    if p t a then some par
    else
      match parentSearchF p (HNode.elem t a c) c with
      | some m => some m
      | none => parentSearchF p par rest
  | HForest.cons (HNode.text _) rest => parentSearchF p par rest
end

/-- A navigation entry (`SidebarItem` interface, lines 17-21). -/
structure SidebarItem where
  href : String
  text : String
  isActive : Bool
deriving DecidableEq

/-- The container search of `extractSidebarItems` (lines 38-51): the first
match of the `SIDEBAR_SELECTORS` class selectors over the whole document,
else the parent of the first `.list-unstyled` element (`none` when there is
no such element, or when it is the document element, whose `parentElement`
is `null`). -/
def sidebarContainer (root : HNode) : Option HNode :=
  match findN (clsPred "sidebar-column") root with
  | some e => some e
  | none =>
    match findN (clsPred "web-sidebar") root with
    | some e => some e
    | none =>
      match findN (clsPred "sidebar-items") root with
      | some e => some e
      | none =>
        match root with
        | HNode.elem _ a _ =>
          if hasClassToken "list-unstyled" a then none
          else parentSearchN (clsPred "list-unstyled") root
        | HNode.text _ => parentSearchN (clsPred "list-unstyled") root

/-- The per-anchor body of the `links.forEach` loop (lines 56-69): keep the
anchor when its `href` is non-null and non-empty, its trimmed text is
non-empty, the lowercased text does not contain `"newsletter"`, and the
`href` does not contain `"/newsletters"`. -/
def sidebarKeep (href text : String) : Bool :=
  href != "" && text != "" &&
    !(strIncludes (lowerChars text.data) "newsletter".data) &&
    !(strIncludes href.data "/newsletters".data)

def mkSidebarItem (n : HNode) : Option SidebarItem :=
  match n with
  | HNode.elem _ attrs ch =>
    match getAttr "href" attrs with
    | none => none
    | some href =>
      let text := String.mk (trimChars (textContentF ch))
      if sidebarKeep href text then some ⟨href, text, hasClassToken "active" attrs⟩
      else none
  | HNode.text _ => none

/-- `extractSidebarItems` from `src/pages/dashboard/overview/index.tsx`
lines 32-76.  `container.querySelectorAll('.sidebar-item a, a')` is the set
of all anchor descendants of the container in document order (the first
selector of the union is subsumed by the second). -/
def extractSidebarItems (root : HNode) : List SidebarItem :=
  match sidebarContainer root with
  | none => []
  | some cont => (collectF (tagPred "a") (childrenOf cont)).filterMap mkSidebarItem

/-- One attempted match, at the start of `s`, of the `g`-flagged (case
sensitive) regex `url\(['"]?([^'")]+)['"]?\)` of line 134; returns the match
length and the captured URL.  The quote options are forced (a quote present
must be consumed, since `[^'")]+` excludes quotes), so the scan is
deterministic. -/
def matchUrl (s : List Char) : Option (Nat × List Char) :=
  if "url(".data.isPrefixOf s then
    let r := s.drop 4
    let q1 : Nat := match r with
      | '\'' :: _ => 1
      | '"' :: _ => 1
      | _ => 0
    let r1 := r.drop q1
    let v := r1.takeWhile (fun c => c != '\'' && c != '"' && c != ')')
    if v.isEmpty then none
    else
      let r2 := r1.drop v.length
      let q2 : Nat := match r2 with
        | '\'' :: _ => 1
        | '"' :: _ => 1
        | _ => 0
      match r2.drop q2 with
      | ')' :: _ => some (4 + q1 + v.length + q2 + 1, v)
      | _ => none
  else none

/-- Fuelled global replace of `url(...)` references by
`url('<fixRelativeUrl of the capture>')` (lines 132-138). -/
def fixStyleUrlsF : Nat → List Char → List Char
  | _, [] => []
  | 0, c :: t => c :: t
  | f + 1, c :: t =>
    match matchUrl (c :: t) with
    | some (n, u) =>
      "url('".data ++ fixRelativeUrl u ++ "')".data ++ fixStyleUrlsF f ((c :: t).drop n)
    | none => c :: fixStyleUrlsF f t

/-- `style.replace(/url\(['"]?([^'")]+)['"]?\)/g, ...)` of lines 134-136. -/
def fixStyleUrls (s : List Char) : List Char := fixStyleUrlsF s.length s

/-- The `img` loop of lines 124-129 applied to one attribute list. -/
def fixImgAttrs (attrs : List (String × String)) : List (String × String) :=
  match getAttr "src" attrs with
  | some src =>
    if src != "" then setAttr "src" (String.mk (fixRelativeUrl src.data)) attrs
    else attrs
  | none => attrs

mutual
/-- `contentClone.querySelectorAll('img')` rewrite (lines 124-129) as a
traversal: every `img` element's non-empty `src` is absolutized. -/
def fixImgN : HNode → HNode
  | HNode.elem t a c =>
    HNode.elem t (if t == "img" then fixImgAttrs a else a) (fixImgF c)
  | HNode.text s => HNode.text s
def fixImgF : HForest → HForest
  | HForest.nil => HForest.nil
  | HForest.cons n rest => HForest.cons (fixImgN n) (fixImgF rest)
end

/-- The `[style]` loop of lines 132-138 applied to one attribute list. -/
def fixStyleAttrOf (attrs : List (String × String)) : List (String × String) :=
  match getAttr "style" attrs with
  | some st => setAttr "style" (String.mk (fixStyleUrls st.data)) attrs
  | none => attrs

mutual
/-- `contentClone.querySelectorAll('[style]')` rewrite (lines 132-138) as a
traversal: every element with a `style` attribute has its `url(...)`
references absolutized. -/
def fixStyleN : HNode → HNode
  | HNode.elem t a c => HNode.elem t (fixStyleAttrOf a) (fixStyleF c)
  | HNode.text s => HNode.text s
def fixStyleF : HForest → HForest
  | HForest.nil => HForest.nil
  | HForest.cons n rest => HForest.cons (fixStyleN n) (fixStyleF rest)
end

/-- HTML text-node escaping used by `innerHTML` serialization. -/
def escTextChar (c : Char) : List Char :=
  if c == '&' then "&amp;".data
  else if c == '<' then "&lt;".data
  else if c == '>' then "&gt;".data
  else [c]

/-- HTML attribute-value escaping used by `innerHTML` serialization. -/
def escAttrChar (c : Char) : List Char :=
  if c == '&' then "&amp;".data
  else if c == '"' then "&quot;".data
  else [c]

def escTextStr (s : String) : String := String.mk (List.flatten (s.data.map escTextChar))

def escAttrStr (s : String) : String := String.mk (List.flatten (s.data.map escAttrChar))

def serializeAttrs : List (String × String) → String
  | [] => ""
  | (k, v) :: rest => " " ++ k ++ "=\"" ++ escAttrStr v ++ "\"" ++ serializeAttrs rest

mutual
/-- `innerHTML`-style serialization (void and raw-text elements are not
special-cased; no claim depends on the concrete markup text). -/
def serializeN : HNode → String
  | HNode.elem t a c =>
    "<" ++ t ++ serializeAttrs a ++ ">" ++ serializeF c ++ "</" ++ t ++ ">"
  | HNode.text s => escTextStr s
def serializeF : HForest → String
  | HForest.nil => ""
  | HForest.cons n rest => serializeN n ++ serializeF rest
end

/-- The `ExtractedContent` interface (lines 12-15). -/
structure ExtractedContent where
  content : String
  styles : String
deriving DecidableEq

/-- `rel` attribute selector `[rel="stylesheet"]`; HTML defines `rel` as an
ASCII case-insensitive attribute for selector matching. -/
def relStylesheet (attrs : List (String × String)) : Bool :=
  match getAttr "rel" attrs with
  | some r => lowerChars r.data == "stylesheet".data
  | none => false

/-- The styles accumulation of lines 101-113: sanitized `<style>` bodies
(each followed by a newline), then one `@import` per
`link[rel="stylesheet"]` with a truthy `href`. -/
def styleChunk : HNode → String
  | HNode.elem _ _ ch => sanitizeStyles (String.mk (textContentF ch)) ++ "\n"
  | HNode.text _ => ""

def importChunk : HNode → String
  | HNode.elem _ attrs _ =>
    match getAttr "href" attrs with
    | some href =>
      if href != "" then
        "@import url('" ++ String.mk (fixRelativeUrl href.data) ++ "');\n"
      else ""
    | none => ""
  | HNode.text _ => ""

def stylesOf (root : HNode) : String :=
  String.join ((collectN (tagPred "style") root).map styleChunk) ++
    String.join
      ((collectN (fun t a => t == "link" && relStylesheet a) root).map importChunk)

/-- `doc.body || doc.documentElement` (line 116): the first `<body>` element
of the document, else the document element itself. -/
def findBody (root : HNode) : HNode :=
  match findN (tagPred "body") root with
  | some b => b
  | none => root

/-- `CONTENT_SELECTORS.map(sel => body.querySelector(sel)).find(Boolean) ||
body` (lines 117-118): first `main` descendant, else first `.main-content`
descendant, else the body itself. -/
def mainContentOf (root : HNode) : HNode :=
  match findF (tagPred "main") (childrenOf (findBody root)) with
  | some m => m
  | none =>
    match findF (clsPred "main-content") (childrenOf (findBody root)) with
    | some m => m
    | none => findBody root

/-- The content pipeline of lines 120-138 applied to the clone's children
(`innerHTML` serializes children only, so the clone node itself is
irrelevant): remove scripts, absolutize `img` sources, absolutize `url()`
references of `style` attributes. -/
def extractContentNodes (root : HNode) : HForest :=
  fixStyleF (fixImgF (removeScriptsF (childrenOf (mainContentOf root))))

/-- `extractStylesAndContent` from `src/pages/dashboard/overview/index.tsx`
lines 96-148 (the non-throwing path, on a parsed document). -/
def extractStylesAndContent (root : HNode) : ExtractedContent :=
  ⟨serializeF (extractContentNodes root), stylesOf root⟩

/-- `extractSidebarItems` including its `try/catch`: an internal parsing
failure (modelled as `parsed = none`) yields the empty list (lines 72-75). -/
def extractSidebarItemsTotal (_html : String) (parsed : Option HNode) :
    List SidebarItem :=
  match parsed with
  | some root => extractSidebarItems root
  | none => []

/-- `extractStylesAndContent` including its `try/catch`: an internal parsing
failure yields the original unprocessed HTML with empty styles (lines
144-147). -/
def extractStylesAndContentTotal (html : String) (parsed : Option HNode) :
    ExtractedContent :=
  match parsed with
  | some root => extractStylesAndContent root
  | none => ⟨html, ""⟩

/-- The invariant claim C8 ascribes to every produced entry, adjusted to the
source's actual filter. -/
def goodSidebarItem (it : SidebarItem) : Bool := sidebarKeep it.href it.text

/-- A concrete document: a `.sidebar-items` container holding one anchor
`<a href="/newsletter">News</a>`. -/
def newsletterDoc : HNode :=
  HNode.elem "div" [("class", "sidebar-items")]
    (HForest.cons
      (HNode.elem "a" [("href", "/newsletter")]
        (HForest.cons (HNode.text "News") HForest.nil))
      HForest.nil)

-- ### Theorems ### --

theorem ciPrefix_length_le : ∀ p s : List Char, ciPrefix p s = true → p.length ≤ s.length
  | [], _, _ => Nat.zero_le _
  | _ :: _, [], h => by simp [ciPrefix] at h
  | p :: ps, c :: cs, h => by
    simp only [ciPrefix, Bool.and_eq_true] at h
    simpa [Nat.succ_le_succ_iff] using ciPrefix_length_le ps cs h.2

theorem strStartsWith_apiBase_http (v : List Char) :
    strStartsWith (apiBaseChars ++ v) "http".data = true := by
  have h1 : "http".data <+: apiBaseChars := by decide
  have h2 : apiBaseChars <+: apiBaseChars ++ v := List.prefix_append _ _
  simpa [strStartsWith, List.isPrefixOf_iff_prefix] using h1.trans h2

theorem fixRelativeUrl_passthrough (u : List Char)
    (h : strStartsWith u "http".data = true ∨ strStartsWith u "data:".data = true) :
    fixRelativeUrl u = u := by
  rcases h with h | h <;> simp [fixRelativeUrl, h]

theorem length_fixRelativeUrl_grows (u : List Char)
    (h1 : strStartsWith u "http".data = false)
    (h2 : strStartsWith u "data:".data = false) :
    u.length < (fixRelativeUrl u).length := by
  have hb : 0 < apiBaseChars.length := by decide
  simp only [fixRelativeUrl, h1, h2, Bool.or_self, Bool.false_eq_true, if_false,
    List.length_append]
  have hs : u.length ≤ (slashJoin u).length := by
    unfold slashJoin
    split
    · exact Nat.le_refl _
    · simp only [List.length_cons]
      omega
  omega

/-- C3: `fixRelativeUrl` is idempotent on every input, and every absolute
`http`/`https` URL and every `data:` URL is a fixed point. -/
theorem c3_fixRelativeUrl_idempotent_and_absolute_fixed :
    (∀ u : List Char, fixRelativeUrl (fixRelativeUrl u) = fixRelativeUrl u) ∧
    (∀ u : List Char, isAbsHttpUrl u = true ∨ isDataUrl u = true →
      fixRelativeUrl u = u) := by
  constructor
  · intro u
    by_cases h : strStartsWith u "http".data = true ∨ strStartsWith u "data:".data = true
    · rw [fixRelativeUrl_passthrough u h, fixRelativeUrl_passthrough u h]
    · push_neg at h
      rcases h with ⟨h1, h2⟩
      replace h1 := Bool.eq_false_iff.mpr h1
      replace h2 := Bool.eq_false_iff.mpr h2
      have hform : fixRelativeUrl u = apiBaseChars ++ slashJoin u := by
        unfold fixRelativeUrl
        rw [h1, h2]
        rfl
      apply fixRelativeUrl_passthrough
      left
      rw [hform]
      exact strStartsWith_apiBase_http _
  · intro u h
    apply fixRelativeUrl_passthrough
    rcases h with h | h
    · left
      rcases Bool.or_eq_true _ _ |>.mp h with h | h
      · have hp : "http://".data <+: u := by
          simpa [isAbsHttpUrl, strStartsWith, List.isPrefixOf_iff_prefix] using h
        have : "http".data <+: "http://".data := by decide
        simpa [strStartsWith, List.isPrefixOf_iff_prefix] using this.trans hp
      · have hp : "https://".data <+: u := by
          simpa [isAbsHttpUrl, strStartsWith, List.isPrefixOf_iff_prefix] using h
        have : "http".data <+: "https://".data := by decide
        simpa [strStartsWith, List.isPrefixOf_iff_prefix] using this.trans hp
    · right
      exact h

/-- C3 witness: the theorem applied at concrete inputs. -/
theorem c3_witness :
    fixRelativeUrl (fixRelativeUrl "img/a.png".data) = fixRelativeUrl "img/a.png".data ∧
    fixRelativeUrl "https://cdn.example/a.css".data = "https://cdn.example/a.css".data :=
  ⟨c3_fixRelativeUrl_idempotent_and_absolute_fixed.1 _,
   c3_fixRelativeUrl_idempotent_and_absolute_fixed.2 _ (Or.inl (by decide))⟩

/-- C4 counterexample: the input `"httpdocs"` is returned unchanged by
`fixRelativeUrl`, yet it is neither an absolute `http`/`https` URL nor a
`data:` URL — the set of unchanged inputs is the set of strings starting
with the four characters `"http"` (or with `"data:"`), not the set of
absolute URLs. -/
theorem c4_counterexample :
    fixRelativeUrl "httpdocs".data = "httpdocs".data ∧
    isAbsHttpUrl "httpdocs".data = false ∧ isDataUrl "httpdocs".data = false := by
  refine ⟨?_, by decide, by decide⟩
  exact fixRelativeUrl_passthrough _ (Or.inl (by decide))

/-- C4 (amended): `fixRelativeUrl` returns unchanged exactly those inputs that
begin with the literal prefix `"http"` (which covers all absolute
`http`/`https` URLs but also strings such as `"httpdocs"`) or with `"data:"`;
every other input is returned as `API_BASE` followed by the input with exactly
one `'/'` inserted when the input does not already begin with `'/'`. -/
theorem c4_amended_fixRelativeUrl_unchanged_iff (u : List Char) :
    (fixRelativeUrl u = u ↔
      (strStartsWith u "http".data = true ∨ strStartsWith u "data:".data = true)) ∧
    (strStartsWith u "http".data = false → strStartsWith u "data:".data = false →
      fixRelativeUrl u = apiBaseChars ++ slashJoin u) := by
  constructor
  · constructor
    · intro hfix
      by_contra h
      push_neg at h
      rcases h with ⟨h1, h2⟩
      replace h1 := Bool.eq_false_iff.mpr h1
      replace h2 := Bool.eq_false_iff.mpr h2
      have := length_fixRelativeUrl_grows u h1 h2
      rw [hfix] at this
      omega
    · exact fixRelativeUrl_passthrough u
  · intro h1 h2
    unfold fixRelativeUrl
    rw [h1, h2]
    rfl

/-- C4 amended witness: the theorem applied at concrete inputs, discharging
its hypotheses there. -/
theorem c4_amended_witness :
    fixRelativeUrl "files/a.png".data =
      apiBaseChars ++ slashJoin "files/a.png".data ∧
    fixRelativeUrl "https://x.y/z".data = "https://x.y/z".data := by
  constructor
  · exact (c4_amended_fixRelativeUrl_unchanged_iff "files/a.png".data).2
      (by decide) (by decide)
  · exact (c4_amended_fixRelativeUrl_unchanged_iff "https://x.y/z".data).1.mpr
      (Or.inl (by decide))

theorem stripDeclF_of_no_occ (prop : List Char) :
    ∀ s : List Char, ∀ f : Nat, hasDeclOcc prop s = false → stripDeclF prop f s = s := by
  intro s
  induction s with
  | nil => intro f _; cases f <;> rfl
  | cons c t ih =>
    intro f h
    simp only [hasDeclOcc, Bool.or_eq_false_iff] at h
    cases f with
    | zero => rfl
    | succ g =>
      cases hm : matchPropDecl prop (c :: t) with
      | some n => rw [hm] at h; simp at h
      | none => simp only [stripDeclF, hm, ih g h.2]

theorem stripDecl_of_no_occ (prop s : List Char) (h : hasDeclOcc prop s = false) :
    stripDecl prop s = s :=
  stripDeclF_of_no_occ prop s s.length h

theorem replaceScaleF_of_no_occ :
    ∀ s : List Char, ∀ f : Nat, hasScaleOcc s = false → replaceScaleF f s = s := by
  intro s
  induction s with
  | nil => intro f _; cases f <;> rfl
  | cons c t ih =>
    intro f h
    simp only [hasScaleOcc, Bool.or_eq_false_iff] at h
    cases f with
    | zero => rfl
    | succ g =>
      cases hm : matchScale (c :: t) with
      | some n => rw [hm] at h; simp at h
      | none => simp only [replaceScaleF, hm, ih g h.2]

theorem replaceScale_of_no_occ (s : List Char) (h : hasScaleOcc s = false) :
    replaceScale s = s :=
  replaceScaleF_of_no_occ s s.length h

theorem sanitizeStyles_of_no_pattern (s : String)
    (h : noSanitizerPattern s.data = true) : sanitizeStyles s = s := by
  simp only [noSanitizerPattern, hasBadDecl, Bool.not_eq_true', Bool.or_eq_false_iff] at h
  obtain ⟨⟨⟨⟨⟨⟨h1, h2⟩, h3⟩, h4⟩, h5⟩, h6⟩, h7⟩ := h
  unfold sanitizeStyles
  rw [stripDecl_of_no_occ _ _ h1, stripDecl_of_no_occ _ _ h2,
    stripDecl_of_no_occ _ _ h3, stripDecl_of_no_occ _ _ h4,
    stripDecl_of_no_occ _ _ h5, stripDecl_of_no_occ _ _ h6,
    replaceScale_of_no_occ _ h7]

/-- C5 counterexample: on the CSS text `"transfortransform: x;m: y;"` the
single left-to-right removal pass matches only `"transform: x;"`, and the
surrounding text concatenates to `"transform: y;"` — the sanitized output
still contains a `transform` declaration, refuting "the output contains no
such declaration" as a universal statement. -/
theorem c5_counterexample :
    sanitizeStyles "transfortransform: x;m: y;" = "transform: y;" ∧
    hasDeclOcc "transform".data ("transform: y;").data = true := by
  constructor
  · decide
  · decide

/-- C5 (amended): each of the seven `.replace` passes of `sanitizeStyles` is
a single left-to-right scan, so every `transform`/vendor-prefixed-
`transform`/`zoom` declaration occurrence and every `scale(...)` occurrence
present in the input is removed or rewritten, but text surrounding removed
matches is concatenated and can itself form such a declaration in the
output; the output is guaranteed free of `transform`/vendor/`zoom`
declarations on every input containing no occurrence of any of the seven
patterns (such inputs pass through unchanged). -/
theorem c5_amended_sanitizeStyles_no_pattern_free (s : String)
    (h : noSanitizerPattern s.data = true) :
    hasBadDecl (sanitizeStyles s).data = false := by
  rw [sanitizeStyles_of_no_pattern s h]
  simp only [noSanitizerPattern, Bool.not_eq_true', Bool.or_eq_false_iff] at h
  exact h.1

/-- C5 witness: the amended theorem applied at a concrete input. -/
theorem c5_witness :
    noSanitizerPattern ("color: red;").data = true ∧
    hasBadDecl (sanitizeStyles "color: red;").data = false :=
  ⟨by decide, c5_amended_sanitizeStyles_no_pattern_free "color: red;" (by decide)⟩

/-- C6 counterexample: `text-transform` merely shares the substring
`transform` with the targeted property names, yet the declaration
`"text-transform: uppercase;"` is not left unchanged — the first regex pass
matches its tail `"transform: uppercase;"` and deletes it, leaving
`"text-"`. -/
theorem c6_counterexample :
    sanitizeStyles "text-transform: uppercase;" = "text-" ∧
    ("text-" : String) ≠ "text-transform: uppercase;" := by
  constructor
  · decide
  · decide

/-- C6 (amended): a CSS text is left unchanged by `sanitizeStyles` whenever
it contains no case-insensitive occurrence of `transform`, a vendor-prefixed
`transform`, or `zoom` immediately followed by optional whitespace and a
colon, and no `scale(...)` call.  Unrelated properties such as
`transform-origin` (where `transform` is not colon-adjacent) are therefore
unaffected, but properties with `transform` as a colon-adjacent suffix, such
as `text-transform`, are affected. -/
theorem c6_amended_sanitizeStyles_unrelated_unchanged (s : String)
    (h : noSanitizerPattern s.data = true) : sanitizeStyles s = s :=
  sanitizeStyles_of_no_pattern s h

/-- C6 witness: the amended theorem applied at `transform-origin: 0 0;`. -/
theorem c6_witness :
    noSanitizerPattern ("transform-origin: 0 0;").data = true ∧
    sanitizeStyles "transform-origin: 0 0;" = "transform-origin: 0 0;" :=
  ⟨by decide, c6_amended_sanitizeStyles_unrelated_unchanged "transform-origin: 0 0;" (by decide)⟩

/-- Boolean extensionality helper shared by the path/route proofs. -/
theorem boolEqOfIff {a b : Bool} (h : a = true ↔ b = true) : a = b := by
  cases a <;> cases b <;> simp_all

theorem eq_dropLast_concat_slash (p : List Char) (hp : p.getLast? = some '/') :
    p = p.dropLast ++ ['/'] := by
  have hne : p ≠ [] := by
    intro e
    subst e
    simp at hp
  have hrec := List.dropLast_append_getLast hne
  have hg : p.getLast hne = '/' := by
    have := List.getLast?_eq_getLast p hne
    rw [hp] at this
    exact (Option.some.inj this).symm
  rw [hg] at hrec
  exact hrec.symm

theorem normalizePath_eq_cases (l c : List Char)
    (h : normalizePath l = normalizePath c) :
    l = c ∨ l = c ++ ['/'] ∨ c = l ++ ['/'] := by
  unfold normalizePath at h
  split_ifs at h with h1 h2 h2
  · left
    rw [eq_dropLast_concat_slash l h1.1, eq_dropLast_concat_slash c h2.1, h]
  · right
    left
    rw [eq_dropLast_concat_slash l h1.1, h]
  · right
    right
    rw [eq_dropLast_concat_slash c h2.1, h]
  · left
    exact h

/-- `matchesPath`'s fourth disjunct is redundant: the whole test is
equivalent to the three syntactic checks. -/
theorem matchesPath_eq_three_checks (l c : List Char) :
    matchesPath l c = (l == c || l == c ++ ['/'] || c == l ++ ['/']) := by
  apply boolEqOfIff
  unfold matchesPath
  simp only [Bool.or_eq_true, beq_iff_eq]
  constructor
  · rintro (((h | h) | h) | h)
    · exact Or.inl (Or.inl h)
    · exact Or.inl (Or.inr h)
    · exact Or.inr h
    · rcases normalizePath_eq_cases l c h with h | h | h
      · exact Or.inl (Or.inl h)
      · exact Or.inl (Or.inr h)
      · exact Or.inr h
  · rintro ((h | h) | h)
    · exact Or.inl (Or.inl (Or.inl h))
    · exact Or.inl (Or.inl (Or.inr h))
    · exact Or.inl (Or.inr h)

/-- C7 counterexample: the root path is collapsed against the empty path —
`matchesPath "" "/"` is `true` (third source check: `"/" == "" + "/"`), while
the claim's predicate, whose "root `/` is never collapsed" clause forbids
stripping the slash of `"/"`, yields `false`. -/
theorem c7_counterexample :
    matchesPath [] ['/'] = true ∧ specIsActive [] ['/'] = false := by
  constructor
  · decide
  · decide

/-- C7 (amended): for all non-empty paths, `matchesPath` returns true exactly
when the two paths are byte-equal or equal after stripping exactly one
trailing slash from either side (with the root path `"/"` never collapsed),
and hence agrees with the claim's predicate; the two differ only on the
empty path, which `matchesPath` treats as the stripped form of `"/"`. -/
theorem c7_amended_matchesPath_eq_specIsActive (l c : List Char)
    (hl : l ≠ []) (hc : c ≠ []) : matchesPath l c = specIsActive l c := by
  rw [matchesPath_eq_three_checks]
  apply boolEqOfIff
  simp only [specIsActive, Bool.or_eq_true, beq_iff_eq, decide_eq_true_eq]
  constructor
  · rintro ((h | h) | h)
    · exact Or.inl h
    · refine Or.inr (Or.inl ⟨?_, ?_, ?_⟩)
      · rw [h]
        exact List.getLast?_concat c
      · intro e
        rw [e] at h
        have hlen : c.length + 1 = 1 := by
          simpa using congrArg List.length h.symm
        exact hc (List.length_eq_zero.mp (by omega))
      · rw [h]
        exact List.dropLast_concat
    · refine Or.inr (Or.inr ⟨?_, ?_, ?_⟩)
      · rw [h]
        exact List.getLast?_concat l
      · intro e
        rw [e] at h
        have hlen : l.length + 1 = 1 := by
          simpa using congrArg List.length h.symm
        exact hl (List.length_eq_zero.mp (by omega))
      · rw [h]
        exact List.dropLast_concat
  · rintro (h | ⟨h1, _, h3⟩ | ⟨h1, _, h3⟩)
    · exact Or.inl (Or.inl h)
    · refine Or.inl (Or.inr ?_)
      rw [← h3]
      exact eq_dropLast_concat_slash l h1
    · refine Or.inr ?_
      rw [← h3]
      exact eq_dropLast_concat_slash c h1

/-- C7 witness: the amended theorem applied at concrete non-empty paths
differing by one trailing slash. -/
theorem c7_witness :
    matchesPath "/app/orders".data "/app/orders/".data =
      specIsActive "/app/orders".data "/app/orders/".data :=
  c7_amended_matchesPath_eq_specIsActive _ _ (by decide) (by decide)

/-- C2 counterexample: a link resolving to `https://evil.example/x` has an
origin different from the backend origin, yet its pathname starts with `'/'`
(as every `http(s)` URL's does), so the handler prevents default, stops
propagation and client-routes — it is not left to default browser
handling. -/
theorem c2_counterexample :
    handleContentClick (some ⟨"https://evil.example", "/x", "", ""⟩) =
      ⟨true, true, some "/x"⟩ ∧
    ("https://evil.example" : String) ≠ apiBaseOrigin := by
  constructor
  · decide
  · decide

/-- C2 (amended): the handler prevents default, stops propagation and
client-routes to the URL's `pathname + search + hash` exactly when the URL's
origin equals the backend origin or its pathname starts with `'/'`; since
every `http(s)` URL has a `'/'`-initial pathname, links to other `http(s)`
origins are also intercepted — only anchors whose resolved URL has neither
the backend origin nor a `'/'`-initial pathname (e.g. `mailto:` links) are
left to default browser handling. -/
theorem c2_amended_handleContentClick_iff (u : UrlParts) :
    ((handleContentClick (some u)).preventedDefault = true ↔
      (u.origin = apiBaseOrigin ∨ strStartsWith u.pathname.data "/".data = true)) ∧
    (handleContentClick (some u)).stoppedPropagation =
      (handleContentClick (some u)).preventedDefault ∧
    ((handleContentClick (some u)).preventedDefault = true →
      (handleContentClick (some u)).navigatedTo =
        some (u.pathname ++ u.search ++ u.hash)) ∧
    ((handleContentClick (some u)).preventedDefault = false →
      (handleContentClick (some u)).navigatedTo = none) := by
  by_cases h : isInternalLink u = true
  · have hd : handleContentClick (some u) =
        ⟨true, true, some (u.pathname ++ u.search ++ u.hash)⟩ := by
      simp [handleContentClick, h]
    rw [hd]
    refine ⟨⟨fun _ => ?_, fun _ => rfl⟩, rfl, fun _ => rfl, by simp⟩
    simpa [isInternalLink] using h
  · have hd : handleContentClick (some u) = ⟨false, false, none⟩ := by
      simp [handleContentClick, h]
    rw [hd]
    refine ⟨⟨by simp, fun hor => absurd ?_ h⟩, rfl, by simp, fun _ => rfl⟩
    simpa [isInternalLink] using hor

/-- C2 witness: the amended theorem applied at a backend-origin URL. -/
theorem c2_witness :
    (handleContentClick
      (some ⟨"https://gcdev.m.frappe.cloud", "/app/orders", "", ""⟩)).navigatedTo =
      some "/app/orders" := by
  have h := (c2_amended_handleContentClick_iff
    ⟨"https://gcdev.m.frappe.cloud", "/app/orders", "", ""⟩).2.2.1 (by decide)
  simpa using h

/-- C10: the route-change effect issues a fetch exactly when the full
`pathname + search + hash` string is neither `"/"` nor `"/login"` and a
token is present; in particular `"/login?next=/x"` with a token present does
trigger a fetch of that very path. -/
theorem c10_routeChangeFetch_skips_only_exact :
    (∀ (pn s h : String) (tk : Option String),
      (routeChangeFetch pn s h tk).isSome = true ↔
        (pn ++ s ++ h ≠ "/" ∧ pn ++ s ++ h ≠ "/login" ∧ tokenPresent tk = true)) ∧
    routeChangeFetch "/login" "?next=/x" "" (some "t") = some "/login?next=/x" := by
  constructor
  · intro pn s h tk
    simp only [routeChangeFetch, SKIP_ROUTES, List.contains_cons,
      List.contains_nil, Bool.or_false, Bool.or_eq_true, beq_iff_eq,
      Bool.not_eq_true']
    by_cases h1 : pn ++ s ++ h = "/" <;>
      by_cases h2 : pn ++ s ++ h = "/login" <;>
      by_cases h3 : tokenPresent tk = true <;>
      simp_all
  · decide


theorem hasScriptF_removeScriptsF : ∀ f : HForest, hasScriptF (removeScriptsF f) = false
  | HForest.nil => by simp [removeScriptsF, hasScriptF]
  | HForest.cons (HNode.elem t a c) rest => by
    by_cases h : t = "script"
    · simp [removeScriptsF, h, hasScriptF_removeScriptsF rest]
    · simp [removeScriptsF, h, hasScriptF, hasScriptN,
        hasScriptF_removeScriptsF c, hasScriptF_removeScriptsF rest]
  | HForest.cons (HNode.text s) rest => by
    simp [removeScriptsF, hasScriptF, hasScriptN, hasScriptF_removeScriptsF rest]

mutual
theorem hasScriptN_fixImgN : ∀ n : HNode, hasScriptN (fixImgN n) = hasScriptN n
  | HNode.elem t a c => by simp [fixImgN, hasScriptN, hasScriptF_fixImgF c]
  | HNode.text s => by simp [fixImgN]
theorem hasScriptF_fixImgF : ∀ f : HForest, hasScriptF (fixImgF f) = hasScriptF f
  | HForest.nil => rfl
  | HForest.cons n rest => by
    simp [fixImgF, hasScriptF, hasScriptN_fixImgN n, hasScriptF_fixImgF rest]
end

mutual
theorem hasScriptN_fixStyleN : ∀ n : HNode, hasScriptN (fixStyleN n) = hasScriptN n
  | HNode.elem t a c => by simp [fixStyleN, hasScriptN, hasScriptF_fixStyleF c]
  | HNode.text s => by simp [fixStyleN]
theorem hasScriptF_fixStyleF : ∀ f : HForest, hasScriptF (fixStyleF f) = hasScriptF f
  | HForest.nil => rfl
  | HForest.cons n rest => by
    simp [fixStyleF, hasScriptF, hasScriptN_fixStyleN n, hasScriptF_fixStyleF rest]
end

/-- C1: the `content` field of the extracted fragment is the serialization
of the processed content forest, and that forest contains no `<script>`
element, for every parsed document — the script removal step eliminates
every descendant script and the subsequent attribute-rewriting traversals
preserve script-freeness. -/
theorem c1_content_has_no_script (root : HNode) :
    (extractStylesAndContent root).content = serializeF (extractContentNodes root) ∧
    hasScriptF (extractContentNodes root) = false := by
  refine ⟨rfl, ?_⟩
  unfold extractContentNodes
  rw [hasScriptF_fixStyleF, hasScriptF_fixImgF, hasScriptF_removeScriptsF]

theorem mkSidebarItem_good (n : HNode) (it : SidebarItem)
    (hn : mkSidebarItem n = some it) : goodSidebarItem it = true := by
  cases n with
  | text s => simp [mkSidebarItem] at hn
  | elem t attrs ch =>
    cases hhref : getAttr "href" attrs with
    | none => simp [mkSidebarItem, hhref] at hn
    | some href =>
      simp only [mkSidebarItem, hhref] at hn
      split at hn
      · next hk =>
        injection hn with h
        subst h
        simpa [goodSidebarItem] using hk
      · exact absurd hn (by simp)

/-- C8 counterexample: for the document
`<div class="sidebar-items"><a href="/newsletter">News</a></div>` the
extracted list contains the entry with href `"/newsletter"` — an href that
contains `"newsletter"` case-insensitively — because the source's href
filter tests only the exact substring `"/newsletters"`. -/
theorem c8_counterexample :
    extractSidebarItems newsletterDoc = [⟨"/newsletter", "News", false⟩] ∧
    strIncludes (lowerChars "/newsletter".data) "newsletter".data = true := by
  constructor
  · decide
  · decide

/-- C8 (amended): every entry of the extracted navigation list has a
non-empty href and non-empty trimmed text, its lowercased text does not
contain `"newsletter"`, and its href does not contain the exact substring
`"/newsletters"`; anchors are collected in document order with duplicates
preserved.  Hrefs containing `"newsletter"` in any other form — different
case, or without the plural-with-slash shape, such as `"/newsletter"` — are
not filtered out. -/
theorem c8_amended_extractSidebarItems_filtered (root : HNode) :
    (extractSidebarItems root).all goodSidebarItem = true := by
  unfold extractSidebarItems
  split
  · rfl
  · rw [List.all_eq_true]
    intro it hit
    rcases List.mem_filterMap.mp hit with ⟨n, -, hn⟩
    exact mkSidebarItem_good n it hn

/-- C9: both extraction operations are total functions of their input; with
an internal failure modelled as the absence of a parse result, navigation
extraction returns the empty list, content extraction returns the original
unprocessed HTML string with empty styles, and navigation extraction also
returns the empty list whenever no container is found. -/
theorem c9_extraction_total_fallbacks (html : String) :
    extractSidebarItemsTotal html none = [] ∧
    extractStylesAndContentTotal html none = ⟨html, ""⟩ ∧
    (∀ root : HNode, sidebarContainer root = none → extractSidebarItems root = []) := by
  refine ⟨rfl, rfl, ?_⟩
  intro root h
  unfold extractSidebarItems
  rw [h]

/-- C9 witness: the theorem applied at a concrete input, with the
no-container case discharged on a concrete document. -/
theorem c9_witness :
    extractSidebarItemsTotal "<p>x</p>" none = [] ∧
    extractStylesAndContentTotal "<p>x</p>" none = ⟨"<p>x</p>", ""⟩ ∧
    extractSidebarItems (HNode.text "t") = [] :=
  ⟨(c9_extraction_total_fallbacks "<p>x</p>").1,
   (c9_extraction_total_fallbacks "<p>x</p>").2.1,
   (c9_extraction_total_fallbacks "<p>x</p>").2.2 (HNode.text "t") rfl⟩
